import Mathlib

/-!
Verification development for the `use-form` nested-state update engine
(`src/use-form.hook.ts`).

The TypeScript source is shallowly embedded over a type `JVal` of JavaScript
values.  Objects are association lists of string keys in insertion order
(JavaScript objects never carry duplicate keys, and the engine only builds
objects with pairwise-distinct keys).  `JVal.vEvt` stands for a DOM `Event`
instance, used only by the `instanceof Event` test of the update dispatcher.

Recursive JavaScript functions (ramda's `mergeDeepLeft`) are embedded with an
explicit recursion-depth budget `fuel`, modelling the JavaScript call stack:
running out of fuel is the engine's stack-overflow failure.  All theorems about
the engine quantify over `fuel`, and concrete runs use a sufficient budget.

Fallible computations return `Except String`; `.error "TypeError"` models a
thrown JavaScript `TypeError` (for example `hasOwnProperty` called on `null`
inside ramda's merge, which never guards its right operand).

Because the root `useForm` hook applies its middleware function at well-defined
points, the root update is embedded as `handleUpdateC`, returning the new state
*together with the number of middleware invocations* performed by that update;
this instruments the claim that the transform runs exactly once per update.
-/

inductive JVal where
  | vNull
  | vUndef
  | vStr (s : String)
  | vNum (n : Int)
  | vBool (b : Bool)
  | vEvt
  | vObj (fields : List (String × JVal))
  | vArr (elems : List JVal)

/-- Decimal rendering of a natural number, used for JavaScript's canonical
array/string index property keys ("0", "1", ...). -/
def digitChar : Nat → Char
  | 0 => '0' | 1 => '1' | 2 => '2' | 3 => '3' | 4 => '4'
  | 5 => '5' | 6 => '6' | 7 => '7' | 8 => '8' | _ => '9'

def natKeyAux : Nat → Nat → List Char
  | 0, _ => []
  | _+1, 0 => []
  | fuel+1, n => natKeyAux fuel (n / 10) ++ [digitChar (n % 10)]

def natKey (n : Nat) : String :=
  if n = 0 then "0" else String.mk (natKeyAux (n+1) n)

/-- JavaScript truthiness (`if (x)`), restricted to the values of the model. -/
def truthy : JVal → Bool
  | .vNull => false
  | .vUndef => false
  | .vBool b => b
  | .vNum n => n != 0
  | .vStr s => s != ""
  | _ => true

/-- The `x == null` test of JavaScript (null or undefined). -/
def nullish : JVal → Bool
  | .vNull => true
  | .vUndef => true
  | _ => false

/-- Ramda's `_isObject`: `Object.prototype.toString.call(x) === '[object Object]'`,
true exactly for plain objects (not arrays, strings or null). -/
def isPlainObj : JVal → Bool
  | .vObj _ => true
  | _ => false

/-- Canonical array-index lookup: `k` is an index of a collection of length
`len` iff it is the canonical decimal rendering of some `i < len` (JavaScript
property keys like "07" are not canonical indices). -/
def canonIdx (k : String) (len : Nat) : Option Nat :=
  (List.range len).find? (fun i => natKey i == k)

/-- JavaScript property read `v[k]`, for the values on which the engine reads
properties.  Reads on primitives return `undefined` (strings additionally have
index and length properties); the engine never reads a property of
null/undefined without first guarding (optional chaining or `_has`). -/
def getProp (v : JVal) (k : String) : JVal :=
  match v with
  | .vObj fs => ((fs.lookup k).getD .vUndef)
  | .vArr xs =>
    if k == "length" then .vNum xs.length
    else
      match canonIdx k xs.length with
      | some i => xs.getD i .vUndef
      | none => .vUndef
  | .vStr s =>
    if k == "length" then .vNum s.length
    else
      match canonIdx k s.length with
      | some i =>
        match s.data.get? i with
        | some c => .vStr (String.mk [c])
        | none => .vUndef
      | none => .vUndef
  | _ => JVal.vUndef

/-- Own enumerable entries of a value, in `for..in` order: object fields in
insertion order, array elements and string characters under their index keys,
nothing for primitives and null/undefined. -/
def jEntries : JVal → List (String × JVal)
  | .vObj fs => fs
  | .vArr xs => xs.enum.map (fun p => (natKey p.1, p.2))
  | .vStr s => s.data.enum.map (fun p => (natKey p.1, JVal.vStr (String.mk [p.2])))
  | _ => []

/-- Ramda's `_has(k, v)` (`Object.prototype.hasOwnProperty.call(v, k)`):
throws a TypeError when `v` is null/undefined. -/
def jHas (v : JVal) (k : String) : Except String Bool :=
  match v with
  | .vNull => .error "TypeError"
  | .vUndef => .error "TypeError"
  | .vObj fs => .ok (fs.any (fun p => p.1 == k))
  | .vArr xs => .ok (k == "length" || (canonIdx k xs.length).isSome)
  | .vStr s => .ok (k == "length" || (canonIdx k s.length).isSome)
  | _ => .ok false

/-- JavaScript strict equality `===` on the values the engine compares
(identifier keys and the `target.type === 'checkbox'` test).  Two composite
values compare by reference in JavaScript; distinct references are unequal, and
reference identity is not representable in this pure value model, so composite
operands are modelled as unequal.  The list-engine theorems therefore
hypothesise the comparisons the source performs on primitive keys, matching the
library's documented use of identifier functions returning a primitive
property. -/
def jStrictEq : JVal → JVal → Bool
  | .vNull, .vNull => true
  | .vUndef, .vUndef => true
  | .vStr s, .vStr t => s == t
  | .vNum m, .vNum n => m == n
  | .vBool a, .vBool b => a == b
  | _, _ => false

/-- Second loop of ramda's `mergeWithKey`: append the right operand's entries
whose key is not already present in the accumulated result. -/
def mLoop2 {β : Type} : List (String × β) → List (String × β) → List (String × β)
  | acc, [] => acc
  | acc, (k, rv) :: rest =>
    if acc.any (fun p => p.1 == k) then mLoop2 acc rest
    else mLoop2 (acc ++ [(k, rv)]) rest

/-- First loop of ramda's `mergeWithKey`, specialised to `mergeDeepLeft`'s
key function: for every own enumerable entry `(k, lv)` of the left operand,
keep `lv`, except that when the right operand also has `k` and both values are
plain objects the merge recurses (`mrg`).  `_has(k, r)` throws on a
null/undefined right operand. -/
def mLoop1 (mrg : JVal → JVal → Except String JVal) :
    List (String × JVal) → JVal → Except String (List (String × JVal))
  | [], _ => .ok []
  | (k, lv) :: rest, r => do
    let b ← jHas r k
    let v ←
      if b then
        let rv := getProp r k
        if isPlainObj lv && isPlainObj rv then mrg lv rv else .ok lv
      else .ok lv
    let tail ← mLoop1 mrg rest r
    .ok ((k, v) :: tail)

/-- Ramda's `mergeDeepLeft(l, r)` (via `mergeDeepWithKey`/`mergeWithKey`):
builds a fresh plain object from the two loops above.  `fuel` bounds the
recursion depth (the JavaScript call stack). -/
def mergeDeepLeftJ : Nat → JVal → JVal → Except String JVal
  | 0, _, _ => .error "RangeError"
  | n+1, l, r => do
    let p1 ← mLoop1 (mergeDeepLeftJ n) (jEntries l) r
    .ok (.vObj (mLoop2 p1 (jEntries r)))

/-- JavaScript `key.split('.')` on the character list: maximal split on the
dot character; the empty string splits to `[""]`. -/
def splitCharList : List Char → List (List Char)
  | [] => [[]]
  | c :: cs =>
    if c = '.' then [] :: splitCharList cs
    else
      match splitCharList cs with
      | t :: ts => (c :: t) :: ts
      | [] => [[c]]

/-- JavaScript `key.split('.')` (`String.prototype.split` with the one-character
separator used throughout the source). -/
def splitPath (s : String) : List String :=
  (splitCharList s.data).map (fun l => String.mk l)

/-- Ramda's `path(keys, v)`: walk the keys, returning `undefined` as soon as an
intermediate value is null/undefined. -/
def jpath : List String → JVal → JVal
  | [], v => v
  | k :: ks, v => if nullish v then .vUndef else jpath ks (getProp v k)

/-- Ramda's `set(lensPath(keys), value, {})` (`assocPath` over the empty
object): the minimal nested object carrying `value` at `keys`. -/
def singletonAt : List String → JVal → JVal
  | [], v => v
  | k :: ks, v => .vObj [(k, singletonAt ks v)]

/-- Source `UpdateOnPathAndValue`: build the singleton delta for the dotted key
and hand it to the update function together with the replace flag. -/
def UpdateOnPathAndValueJ {γ : Type} (h : JVal → JVal → Except String γ)
    (key : String) (value replace : JVal) : Except String γ :=
  h (singletonAt (splitPath key) value) replace

/-- The `event?.nativeEvent instanceof Event` test of the source `Update`. -/
def isEventArg : JVal → Bool
  | .vObj fs =>
    match fs.lookup "nativeEvent" with
    | some .vEvt => true
    | _ => false
  | _ => false

/-- Source `UpdateOnEvent`: read `target`, pick `checked` for checkbox inputs
and `value` otherwise, and update on the path `target.name` (merge mode: the
replace argument is left undefined).  Reading `target.type` of a nullish
target, or calling `.split` on a non-string name, throws a TypeError. -/
def UpdateOnEventJ {γ : Type} (h : JVal → JVal → Except String γ)
    (e : JVal) : Except String γ :=
  let t := getProp e "target"
  if nullish t then .error "TypeError"
  else
    let value := if jStrictEq (getProp t "type") (.vStr "checkbox")
      then getProp t "checked" else getProp t "value"
    match getProp t "name" with
    | .vStr n => UpdateOnPathAndValueJ h n value .vUndef
    | _ => .error "TypeError"

/-- Source `Update`, the update dispatcher: native-event first, then the
path-plus-value shape when the first argument is a string *and* the second
argument is defined, else the raw-delta shape. -/
def UpdateJ {γ : Type} (h : JVal → JVal → Except String γ)
    (a b c : JVal) : Except String γ :=
  if isEventArg a then UpdateOnEventJ h a
  else
    match a with
    | .vStr s =>
      match b with
      | .vUndef => h a b
      | _ => UpdateOnPathAndValueJ h s b c
    | _ => h a b

/-- Source `useForm.handleUpdate` with middleware `tf`, instrumented with the
number of middleware invocations the update performs: the `null`-plus-replace
clear publishes `null` without invoking the middleware; a replace publishes
`tf delta`; otherwise the delta is deep-merged into the current state and the
middleware applied to the result. -/
def handleUpdateC (fuel : Nat) (tf : JVal → JVal)
    (delta replace data : JVal) : Except String (JVal × Nat) :=
  match delta, truthy replace with
  | .vNull, true => .ok (.vNull, 0)
  | _, true => .ok (tf delta, 1)
  | _, false => do
    let m ← mergeDeepLeftJ fuel delta data
    .ok (tf m, 1)

/-- A handle's change function: the three dispatcher arguments, the current
root state, and the resulting root state paired with the number of middleware
invocations. -/
def ChangeFn : Type := JVal → JVal → JVal → JVal → Except String (JVal × Nat)

/-- Source `useForm`'s `handleChange`: the dispatcher over the root
`handleUpdate`. -/
def rootChange (fuel : Nat) (tf : JVal → JVal) : ChangeFn :=
  fun a b c data => UpdateJ (fun d r => handleUpdateC fuel tf d r data) a b c

/-- Source `useNestedForm`'s `handleChange`: the dispatcher over the nested
`handleUpdate`, which rewrites a delta into `onChange(key, delta, false)` on
the parent handle (the replace argument of the nested update is dropped). -/
def nestedChange (parent : ChangeFn) (key : String) : ChangeFn :=
  fun a b c data => UpdateJ (fun d _ => parent (.vStr key) d (.vBool false) data) a b c

/-- Source `useNestedForm`'s current value: `path(key.split('.'), data) ?? {}`. -/
def nestedValue (data : JVal) (key : String) : JVal :=
  let v := jpath (splitPath key) data
  if nullish v then .vObj [] else v

/-- Apply a sequence of update calls through a change function, threading the
root state. -/
def applyCalls (ch : ChangeFn) : List (JVal × JVal × JVal) → JVal → Except String JVal
  | [], d => .ok d
  | (a, b, c) :: rest, d => do
    let p ← ch a b c d
    applyCalls ch rest p.1

/-- Source `useFormList`'s current value: `path(key.split('.'), data) ?? []`. -/
def listCurrent (data : JVal) (key : String) : JVal :=
  let v := jpath (splitPath key) data
  if nullish v then .vArr [] else v

/-- The `findIndex((i) => identifier(i) === identifier(item))` of the list
engine. -/
def matchIdx (ident : JVal → JVal) (item : JVal) (xs : List JVal) : Option Nat :=
  xs.findIdx? (fun i => jStrictEq (ident i) (ident item))

/-- Array result of source `handleRemoveItem`: `splice(index, 1)` at the first
matching index, or the array unchanged when no element matches. -/
def removeCore (ident : JVal → JVal) (item : JVal) (xs : List JVal) : List JVal :=
  match matchIdx ident item xs with
  | none => xs
  | some i => xs.eraseIdx i

/-- Array result of source `handleUpdateItem`: at the first matching index,
the delta replaces the element outright when the item argument is a string or
when the replace flag is truthy, and is deep-merged into the element
otherwise; no match leaves the array unchanged. -/
def updateItemCore (fuel : Nat) (ident : JVal → JVal)
    (item delta replace : JVal) (xs : List JVal) : Except String (List JVal) :=
  match matchIdx ident item xs with
  | none => .ok xs
  | some i =>
    match item with
    | .vStr _ => .ok (xs.set i delta)
    | _ =>
      if truthy replace then .ok (xs.set i delta)
      else do
        let m ← mergeDeepLeftJ fuel delta (xs.getD i .vUndef)
        .ok (xs.set i m)

/-- Source `handleAddItem`: append the item and publish the new array through
`onChange(key, updatedArray)` on the parent handle.  A non-array current value
is not draftable/updatable and throws. -/
def handleAddItemJ (parent : ChangeFn) (key : String)
    (item data : JVal) : Except String (JVal × Nat) :=
  match listCurrent data key with
  | .vArr xs => parent (.vStr key) (.vArr (xs ++ [item])) .vUndef data
  | _ => .error "TypeError"

/-- Source `handleRemoveItem`: remove by identity and publish through
`onChange(key, updatedArray)`. -/
def handleRemoveItemJ (parent : ChangeFn) (key : String) (ident : JVal → JVal)
    (item data : JVal) : Except String (JVal × Nat) :=
  match listCurrent data key with
  | .vArr xs => parent (.vStr key) (.vArr (removeCore ident item xs)) .vUndef data
  | _ => .error "TypeError"

/-- Source `handleUpdateItem`: update by identity and publish through
`onChange(key, updatedArray)`. -/
def handleUpdateItemJ (fuel : Nat) (parent : ChangeFn) (key : String)
    (ident : JVal → JVal) (item delta replace data : JVal) :
    Except String (JVal × Nat) :=
  match listCurrent data key with
  | .vArr xs => do
    let ys ← updateItemCore fuel ident item delta replace xs
    parent (.vStr key) (.vArr ys) .vUndef data
  | _ => .error "TypeError"

/-- Source `useFormList`'s `handleChange` (`onEdit`): the dispatcher over
`handleUpdateItem` bound to a specific item. -/
def listEditChange (fuel : Nat) (parent : ChangeFn) (key : String)
    (ident : JVal → JVal) (item : JVal) : ChangeFn :=
  fun a b c data =>
    UpdateJ (fun d r => handleUpdateItemJ fuel parent key ident item d r data) a b c

/-- The identity middleware, the default transform of `useForm`. -/
def jId : JVal → JVal := fun v => v

/-- Source `useForm`'s construction of its initial state:
`useState(middlewareFn(initialValue))`. -/
def useFormInitialData (tf : JVal → JVal) (initialValue : JVal) : JVal :=
  tf initialValue

/-- A sample non-identity middleware, `(data) => ({...data, baz: 'qux'})`. -/
def quxMiddleware : JVal → JVal
  | .vObj fs => .vObj (fs ++ [("baz", .vStr "qux")])
  | v => v

/-!
Reference-level model.  The pure value model above cannot express object
identity, so the frame claims (no mutation of caller objects, referential
identity of the published value) are settled over an explicit heap: values are
primitives or references into a heap of plain objects.  The engine's inputs for
these claims contain no `Event` instances, arrays or string-index reads, so the
heap model carries only null/undefined, primitives and plain objects; the
native-event branch of the dispatcher can never fire on representable values
and is omitted.  Every allocation appends to the heap, and existing cells are
never written: mutation of a pre-existing object would show up as a change of
its heap cell.
-/

inductive HVal where
  | hNull
  | hUndef
  | hStr (s : String)
  | hNum (n : Int)
  | hBool (b : Bool)
  | hRef (id : Nat)
deriving DecidableEq, Repr

structure Heap where
  objs : List (List (String × HVal))
deriving DecidableEq, Repr

def lookupObj (h : Heap) (id : Nat) : List (String × HVal) :=
  (h.objs[id]?).getD []

/-- Allocate a fresh plain object; the only way the engine creates objects. -/
def allocObj (h : Heap) (o : List (String × HVal)) : HVal × Heap :=
  (.hRef h.objs.length, ⟨h.objs ++ [o]⟩)

def hNullish : HVal → Bool
  | .hNull => true
  | .hUndef => true
  | _ => false

def htruthy : HVal → Bool
  | .hNull => false
  | .hUndef => false
  | .hBool b => b
  | .hNum n => n != 0
  | .hStr s => s != ""
  | .hRef _ => true

/-- Plain-object test (`_isObject`) in the heap model. -/
def hIsObj : HVal → Bool
  | .hRef _ => true
  | _ => false

/-- Property read through the heap. -/
def hGetProp (h : Heap) (v : HVal) (k : String) : HVal :=
  match v with
  | .hRef id => ((lookupObj h id).lookup k).getD .hUndef
  | _ => HVal.hUndef

/-- Ramda's `_has` in the heap model: throws on null/undefined. -/
def hHas (h : Heap) (v : HVal) (k : String) : Except String Bool :=
  match v with
  | .hNull => .error "TypeError"
  | .hUndef => .error "TypeError"
  | .hRef id => .ok ((lookupObj h id).any (fun p => p.1 == k))
  | _ => .ok false

/-- Own enumerable entries in the heap model. -/
def hEntries (h : Heap) (v : HVal) : List (String × HVal) :=
  match v with
  | .hRef id => lookupObj h id
  | _ => []

/-- First merge loop over the heap, threading allocations made by recursive
merges (`mrg` is the merge at the next-smaller recursion budget). -/
def hMergeLoop1 (mrg : HVal → HVal → Heap → Except String (HVal × Heap)) :
    List (String × HVal) → HVal → Heap → Except String (List (String × HVal) × Heap)
  | [], _, h => .ok ([], h)
  | (k, lv) :: rest, r, h => do
    let b ← hHas h r k
    let p ←
      if b then
        let rv := hGetProp h r k
        if hIsObj lv && hIsObj rv then mrg lv rv h else .ok (lv, h)
      else .ok (lv, h)
    let q ← hMergeLoop1 mrg rest r p.2
    .ok ((k, p.1) :: q.1, q.2)

/-- Ramda's `mergeDeepLeft` over the heap: both loops, then allocation of the
fresh result object (`var result = {}` in `mergeWithKey`). -/
def hMergeDeepLeft : Nat → HVal → HVal → Heap → Except String (HVal × Heap)
  | 0, _, _, _ => .error "RangeError"
  | n+1, l, r, h => do
    let p ← hMergeLoop1 (hMergeDeepLeft n) (hEntries h l) r h
    let fields := mLoop2 p.1 (hEntries p.2 r)
    .ok (allocObj p.2 fields)

/-- `assocPath` over the empty object in the heap model: allocates the chain of
singleton objects. -/
def hSingleton : List String → HVal → Heap → HVal × Heap
  | [], v, h => (v, h)
  | k :: ks, v, h =>
    let p := hSingleton ks v h
    allocObj p.2 [(k, p.1)]

/-- Source `useForm.handleUpdate` in the heap model, with the identity
middleware (the spec's default transform): clear, replace (publishing the very
delta reference), or deep merge. -/
def hHandleUpdate (fuel : Nat) (delta replace data : HVal) (h : Heap) :
    Except String (HVal × Heap) :=
  match delta, htruthy replace with
  | .hNull, true => .ok (.hNull, h)
  | _, true => .ok (delta, h)
  | _, false => hMergeDeepLeft fuel delta data h

/-- Source `handleChange` in the heap model (no `Event` instances are
representable, so the native-event branch of the dispatcher cannot fire). -/
def hRootChange (fuel : Nat) (a b c data : HVal) (h : Heap) :
    Except String (HVal × Heap) :=
  match a, b with
  | .hStr _, .hUndef => hHandleUpdate fuel a b data h
  | .hStr s, _ =>
    let p := hSingleton (splitPath s) b h
    hHandleUpdate fuel p.1 c data p.2
  | _, _ => hHandleUpdate fuel a b data h

/-! Helper lemmas. -/

theorem except_bind_ok {α β : Type} {e : Except String α} {f : α → Except String β} {b : β} :
    (e >>= f) = .ok b ↔ ∃ a, e = .ok a ∧ f a = .ok b := by
  cases e <;> simp [Bind.bind, Except.bind]

theorem splitCharList_ne_nil (cs : List Char) : splitCharList cs ≠ [] := by
  induction cs with
  | nil => simp [splitCharList]
  | cons c cs ih =>
    simp only [splitCharList]
    split
    · simp
    · split
      · simp
      · simp

theorem splitPath_ne_nil (s : String) : splitPath s ≠ [] := by
  simp only [splitPath]
  intro h
  exact splitCharList_ne_nil s.data (List.map_eq_nil_iff.mp h)

theorem splitPath_exists_cons (s : String) : ∃ k ks, splitPath s = k :: ks := by
  cases h : splitPath s with
  | nil => exact absurd h (splitPath_ne_nil s)
  | cons k ks => exact ⟨k, ks, rfl⟩

theorem singletonAt_splitPath_plain (s : String) (v : JVal) :
    isPlainObj (singletonAt (splitPath s) v) = true := by
  obtain ⟨k, ks, h⟩ := splitPath_exists_cons s
  rw [h]
  rfl

/-- The root `handleUpdate` invokes the middleware exactly once on success,
except on the explicit null-plus-replace clear (which invokes it zero times
and publishes `null`). -/
theorem handleUpdateC_count {fuel : Nat} {tf : JVal → JVal} {d r data : JVal}
    {v : JVal} {n : Nat} (h : handleUpdateC fuel tf d r data = .ok (v, n)) :
    n = 1 ∨ (d = .vNull ∧ truthy r = true ∧ n = 0 ∧ v = .vNull) := by
  unfold handleUpdateC at h
  split at h
  · right
    rename_i heq
    simp only [Except.ok.injEq, Prod.mk.injEq] at h
    exact ⟨rfl, heq, h.2.symm, h.1.symm⟩
  · left
    simp only [Except.ok.injEq, Prod.mk.injEq] at h
    exact h.2.symm
  · rw [except_bind_ok] at h
    obtain ⟨m, _, hm⟩ := h
    simp only [Except.ok.injEq, Prod.mk.injEq] at hm
    exact Or.inl hm.2.symm

/-- Every successful dispatch delegates to a single `handleUpdate` call whose
delta is either a freshly built singleton object or the raw first argument with
the second argument as replace flag. -/
theorem UpdateJ_ok_cases {γ : Type} {h : JVal → JVal → Except String γ}
    {a b c : JVal} {res : γ} (hd : UpdateJ h a b c = .ok res) :
    ∃ d r, h d r = .ok res ∧ (isPlainObj d = true ∨ (d = a ∧ r = b)) := by
  unfold UpdateJ at hd
  split at hd
  · unfold UpdateOnEventJ at hd
    simp only [] at hd
    split at hd
    · exact absurd hd (by simp)
    · split at hd
      · rename_i nm heq
        exact ⟨_, _, hd, Or.inl (singletonAt_splitPath_plain nm _)⟩
      · exact absurd hd (by simp)
  · rcases a with _ | _ | s | m | bb | _ | fs | xs
    case vStr =>
      rcases b with _ | _ | t | m2 | b2 | _ | fs2 | xs2
      case vUndef => exact ⟨_, _, hd, Or.inr ⟨rfl, rfl⟩⟩
      all_goals exact ⟨_, _, hd, Or.inl (singletonAt_splitPath_plain s _)⟩
    all_goals exact ⟨_, _, hd, Or.inr ⟨rfl, rfl⟩⟩

/-- A successful root update invokes the middleware exactly once unless it is
the explicit null-plus-replace clear call. -/
theorem rootChange_count {fuel : Nat} {tf : JVal → JVal} {a b c data v : JVal}
    {n : Nat} (h : rootChange fuel tf a b c data = .ok (v, n)) :
    n = 1 ∨ (a = .vNull ∧ truthy b = true) := by
  obtain ⟨d, r, hu, hshape⟩ := UpdateJ_ok_cases h
  rcases handleUpdateC_count hu with h1 | ⟨hnull, htr, _, _⟩
  · exact Or.inl h1
  · rcases hshape with hplain | ⟨hda, hrb⟩
    · rw [hnull] at hplain
      exact absurd hplain (by simp [isPlainObj])
    · exact Or.inr ⟨hda ▸ hnull, hrb ▸ htr⟩

/-- Claim C10: at construction, `useForm` seeds its state with
`middlewareFn(initialValue)`, so the first published value is the middleware's
image of the initial value, not the initial value itself (witnessed by a
non-identity middleware that already shapes the empty initial state). -/
theorem c10_initial_middleware :
    (∀ (tf : JVal → JVal) (init : JVal), useFormInitialData tf init = tf init)
    ∧ useFormInitialData quxMiddleware (.vObj []) = .vObj [("baz", .vStr "qux")]
    ∧ useFormInitialData quxMiddleware (.vObj []) ≠ .vObj [] :=
  ⟨fun _ _ => rfl, rfl, by simp [useFormInitialData, quxMiddleware]⟩

/-- Claim C1, counterexample: the clear update (`update(null, true)`) publishes
`null` while invoking the middleware zero times, not once — the count `0`
returned by the instrumented update refutes "exactly once ... for every delta
and every mode". -/
theorem c1_counterexample :
    rootChange 5 quxMiddleware .vNull (.vBool true) .vUndef (.vObj [("num", .vNum 0)]) =
      .ok (.vNull, 0)
    ∧ (0 : Nat) ≠ 1 :=
  ⟨rfl, by simp⟩

/-- Claim C1, amended: every *successful* update invokes the middleware exactly
once on the computed next tree — through the root handle (for every call shape
except the explicit null-plus-replace clear, which publishes `null` with zero
middleware invocations), and unconditionally through every focused
(`useNestedForm`) handle and every list (`useFormList`) handle. -/
theorem c1_transform_once_amended :
    (∀ (fuel : Nat) (tf : JVal → JVal) (r data : JVal),
      truthy r = true → handleUpdateC fuel tf .vNull r data = .ok (.vNull, 0))
    ∧ (∀ (fuel : Nat) (tf : JVal → JVal) (a b c data v : JVal) (n : Nat),
      rootChange fuel tf a b c data = .ok (v, n) →
      ¬(a = .vNull ∧ truthy b = true) → n = 1)
    ∧ (∀ (fuel : Nat) (tf : JVal → JVal) (key : String) (a b c data v : JVal) (n : Nat),
      nestedChange (rootChange fuel tf) key a b c data = .ok (v, n) → n = 1)
    ∧ (∀ (fuel : Nat) (tf : JVal → JVal) (key : String) (ident : JVal → JVal)
        (item a b c data v : JVal) (n : Nat),
      listEditChange fuel (rootChange fuel tf) key ident item a b c data = .ok (v, n) → n = 1)
    ∧ (∀ (fuel : Nat) (tf : JVal → JVal) (key : String) (item data v : JVal) (n : Nat),
      handleAddItemJ (rootChange fuel tf) key item data = .ok (v, n) → n = 1)
    ∧ (∀ (fuel : Nat) (tf : JVal → JVal) (key : String) (ident : JVal → JVal)
        (item data v : JVal) (n : Nat),
      handleRemoveItemJ (rootChange fuel tf) key ident item data = .ok (v, n) → n = 1) := by
  refine ⟨?_, ?_, ?_, ?_, ?_, ?_⟩
  · intro fuel tf r data htr
    unfold handleUpdateC
    rw [htr]
  · intro fuel tf a b c data v n h hne
    rcases rootChange_count h with h1 | h2
    · exact h1
    · exact absurd h2 hne
  · intro fuel tf key a b c data v n h
    obtain ⟨d, r, hu, _⟩ := UpdateJ_ok_cases h
    rcases rootChange_count hu with h1 | ⟨hk, _⟩
    · exact h1
    · exact absurd hk (by simp)
  · intro fuel tf key ident item a b c data v n h
    obtain ⟨d, r, hu, _⟩ := UpdateJ_ok_cases h
    unfold handleUpdateItemJ at hu
    split at hu
    · rw [except_bind_ok] at hu
      obtain ⟨ys, _, hys⟩ := hu
      rcases rootChange_count hys with h1 | ⟨hk, _⟩
      · exact h1
      · exact absurd hk (by simp)
    · exact absurd hu (by simp)
  · intro fuel tf key item data v n h
    unfold handleAddItemJ at h
    split at h
    · rcases rootChange_count h with h1 | ⟨hk, _⟩
      · exact h1
      · exact absurd hk (by simp)
    · exact absurd h (by simp)
  · intro fuel tf key ident item data v n h
    unfold handleRemoveItemJ at h
    split at h
    · rcases rootChange_count h with h1 | ⟨hk, _⟩
      · exact h1
      · exact absurd hk (by simp)
    · exact absurd h (by simp)

/-- Witness for the amended C1 theorem at concrete inputs. -/
theorem c1_transform_once_witness :
    handleUpdateC 4 jId .vNull (.vBool true) (.vObj []) = .ok (.vNull, 0)
    ∧ (1 : Nat) = 1 ∧ (1 : Nat) = 1 ∧ (1 : Nat) = 1 ∧ (1 : Nat) = 1 ∧ (1 : Nat) = 1 :=
  ⟨c1_transform_once_amended.1 4 jId (.vBool true) (.vObj []) rfl,
   c1_transform_once_amended.2.1 4 jId (.vObj [("foo", .vStr "bar")]) .vUndef .vUndef
     (.vObj []) (.vObj [("foo", .vStr "bar")]) 1 rfl (by simp [truthy]),
   c1_transform_once_amended.2.2.1 4 jId "nest" (.vObj [("some", .vStr "x")]) .vUndef .vUndef
     (.vObj []) (.vObj [("nest", .vObj [("some", .vStr "x")])]) 1 rfl,
   c1_transform_once_amended.2.2.2.1 6 jId "todos" (fun v => getProp v "id")
     (.vObj [("id", .vNum 1)]) (.vObj [("name", .vStr "bar")]) .vUndef .vUndef
     (.vObj [("todos", .vArr [.vObj [("id", .vNum 1), ("name", .vStr "foo")]])])
     (.vObj [("todos", .vArr [.vObj [("name", .vStr "bar"), ("id", .vNum 1)]])]) 1 rfl,
   c1_transform_once_amended.2.2.2.2.1 4 jId "tags" (.vStr "foo")
     (.vObj [("tags", .vArr [])]) (.vObj [("tags", .vArr [.vStr "foo"])]) 1 rfl,
   c1_transform_once_amended.2.2.2.2.2 4 jId "tags" jId (.vStr "foo")
     (.vObj [("tags", .vArr [.vStr "foo"])]) (.vObj [("tags", .vArr [])]) 1 rfl⟩

/-- Claim C2, counterexample: after `update(null, true)` the state is absent,
but the subsequent merge-mode `update({foo: 'bar'})` against the absent state
is not a silent no-op — ramda's merge calls `hasOwnProperty` on the null state
and throws a TypeError. -/
theorem c2_counterexample :
    rootChange 5 jId .vNull (.vBool true) .vUndef (.vObj []) = .ok (.vNull, 0)
    ∧ rootChange 5 jId (.vObj [("foo", .vStr "bar")]) .vUndef .vUndef .vNull =
        .error "TypeError" :=
  ⟨rfl, rfl⟩

/-- Claim C2, amended: `update(null, true)` makes the state absent.  A
subsequent merge-mode update against the absent state is *not* an
absent-preserving no-op: a delta without own enumerable keys (such as `null` or
`undefined`) publishes the middleware's image of the empty tree without
throwing, while an object delta with at least one key throws a TypeError. -/
theorem c2_absent_state_amended :
    (∀ (fuel : Nat) (tf : JVal → JVal) (b data : JVal),
      truthy b = true → rootChange fuel tf .vNull b .vUndef data = .ok (.vNull, 0))
    ∧ (∀ (fuel : Nat) (tf : JVal → JVal),
      rootChange (fuel + 1) tf .vNull .vUndef .vUndef .vNull = .ok (tf (.vObj []), 1))
    ∧ (∀ (fuel : Nat) (tf : JVal → JVal) (k : String) (v : JVal) (fs : List (String × JVal)),
      isEventArg (.vObj ((k, v) :: fs)) = false →
      rootChange (fuel + 1) tf (.vObj ((k, v) :: fs)) .vUndef .vUndef .vNull =
        .error "TypeError") := by
  refine ⟨?_, ?_, ?_⟩
  · intro fuel tf b data htr
    simp only [rootChange, UpdateJ, isEventArg, handleUpdateC]
    rw [htr]
    rfl
  · intro fuel tf
    rfl
  · intro fuel tf k v fs hev
    simp only [rootChange, UpdateJ, hev, if_neg]
    simp only [handleUpdateC, truthy, mergeDeepLeftJ, jEntries, mLoop1, jHas]
    rfl

/-- Witness for the amended C2 theorem at concrete inputs. -/
theorem c2_absent_state_witness :
    rootChange 5 jId .vNull (.vBool true) .vUndef (.vObj []) = .ok (.vNull, 0)
    ∧ rootChange 5 jId .vNull .vUndef .vUndef .vNull = .ok (jId (.vObj []), 1)
    ∧ rootChange 5 jId (.vObj [("foo", .vStr "bar")]) .vUndef .vUndef .vNull =
        .error "TypeError" :=
  ⟨c2_absent_state_amended.1 5 jId (.vBool true) (.vObj []) rfl,
   c2_absent_state_amended.2.1 4 jId,
   c2_absent_state_amended.2.2 4 jId "foo" (.vStr "bar") [] rfl⟩

/-- The observable outcome of the dispatcher: the `(delta, replace)` pair the
dispatched call hands to the underlying `handleUpdate`. -/
def dispatchOutcome (a b c : JVal) : Except String (JVal × JVal) :=
  UpdateJ (fun d r => .ok (d, r)) a b c

/-- Follows the spec's words (claim C4), for comparison with the source
dispatcher: native-event first, then *any* string first argument as a
path-plus-value call, else raw delta — without the source's extra condition
that the second argument be defined. -/
def specDispatchOutcome (a b c : JVal) : Except String (JVal × JVal) :=
  if isEventArg a then UpdateOnEventJ (fun d r => .ok (d, r)) a
  else
    match a with
    | .vStr s => .ok (singletonAt (splitPath s) b, c)
    | _ => .ok (a, b)

/-- Claim C4, counterexample: a string first argument with an *undefined*
second argument is dispatched as a raw delta, not as the path-plus-value call
the claim predicts. -/
theorem c4_counterexample :
    dispatchOutcome (.vStr "foo") .vUndef .vUndef = .ok (.vStr "foo", .vUndef)
    ∧ specDispatchOutcome (.vStr "foo") .vUndef .vUndef =
        .ok (.vObj [("foo", .vUndef)], .vUndef)
    ∧ dispatchOutcome (.vStr "foo") .vUndef .vUndef ≠
        specDispatchOutcome (.vStr "foo") .vUndef .vUndef :=
  ⟨rfl, rfl, by simp [dispatchOutcome, specDispatchOutcome, UpdateJ, isEventArg,
    singletonAt, splitPath, splitCharList]⟩

/-- Claim C4, amended: the dispatcher resolves the call shapes in order —
native-event marker first (singleton delta at `target.name`, checkbox-aware
value, merge mode); otherwise a string first argument together with a *defined*
second argument is a path-plus-value call (singleton delta, the third argument
as replace flag); otherwise the first argument is the raw delta and the second
argument the replace flag (in particular a string first argument with an
undefined second argument falls through to the raw-delta shape). -/
theorem c4_dispatch_order_amended : ∀ a b c : JVal,
    (isEventArg a = true →
      dispatchOutcome a b c =
        (let t := getProp a "target"
         if nullish t = true then .error "TypeError"
         else
           match getProp t "name" with
           | .vStr nm =>
             .ok (singletonAt (splitPath nm)
                   (if jStrictEq (getProp t "type") (.vStr "checkbox") = true
                    then getProp t "checked" else getProp t "value"), .vUndef)
           | _ => .error "TypeError"))
    ∧ (isEventArg a = false → ∀ s : String, a = .vStr s → b ≠ .vUndef →
        dispatchOutcome a b c = .ok (singletonAt (splitPath s) b, c))
    ∧ (isEventArg a = false → (∀ s : String, a = .vStr s → b = .vUndef) →
        dispatchOutcome a b c = .ok (a, b)) := by
  intro a b c
  refine ⟨?_, ?_, ?_⟩
  · intro hev
    simp only [dispatchOutcome, UpdateJ, hev, if_true, UpdateOnEventJ, UpdateOnPathAndValueJ]
  · intro hev s hs hb
    subst hs
    simp only [dispatchOutcome, UpdateJ, hev, Bool.false_eq_true, if_false]
    cases b <;> simp_all [UpdateOnPathAndValueJ]
  · intro hev hstr
    simp only [dispatchOutcome, UpdateJ, hev, Bool.false_eq_true, if_false]
    cases ha : a <;> try rfl
    rename_i s
    rw [hstr s ha]

/-- A well-formed checkbox change notification (a payload carrying a native
`Event` marker), used to exercise the dispatcher's event branch. -/
def sampleEvent : JVal :=
  .vObj [("nativeEvent", .vEvt),
         ("target", .vObj [("name", .vStr "flag"), ("checked", .vBool true),
                           ("type", .vStr "checkbox")])]

/-- Witness for the amended C4 theorem at concrete inputs: an event resolves to
a merge-mode singleton at `target.name`, a string key with a defined value
resolves to a path-plus-value singleton, and a raw object delta passes through
with the second argument as replace flag. -/
theorem c4_dispatch_order_witness :
    dispatchOutcome sampleEvent .vUndef .vUndef = .ok (.vObj [("flag", .vBool true)], .vUndef)
    ∧ dispatchOutcome (.vStr "a.b") (.vStr "v") (.vBool true) =
        .ok (.vObj [("a", .vObj [("b", .vStr "v")])], .vBool true)
    ∧ dispatchOutcome (.vObj [("x", .vNum 1)]) (.vBool true) .vUndef =
        .ok (.vObj [("x", .vNum 1)], .vBool true) := by
  refine ⟨?_, ?_, ?_⟩
  · exact ((c4_dispatch_order_amended sampleEvent .vUndef .vUndef).1 rfl).trans rfl
  · exact (((c4_dispatch_order_amended (.vStr "a.b") (.vStr "v") (.vBool true)).2.1 rfl
      "a.b" rfl (by simp))).trans rfl
  · exact ((c4_dispatch_order_amended (.vObj [("x", .vNum 1)]) (.vBool true) .vUndef).2.2 rfl
      (fun s h => absurd h (by simp)))

/-- Follows the spec's words (claim C5), for comparison with the source nested
handle: the derived update forwards the caller's mode to the ancestor
(`ancestorHandle.update(path, delta, mode)`). -/
def specNestedChange (parent : ChangeFn) (key : String) : ChangeFn :=
  fun a b c data => UpdateJ (fun d r => parent (.vStr key) d r data) a b c

/-- Claim C5, counterexample: a replace-mode update through a focused handle is
not rewritten with the same mode.  The source handle merges (preserving the
sibling `y`), while the spec's mode-forwarding handle would replace the whole
root with the path-qualified singleton. -/
theorem c5_counterexample :
    nestedChange (rootChange 5 jId) "a"
        (.vObj [("x", .vNum 9)]) (.vBool true) .vUndef
        (.vObj [("a", .vObj [("x", .vNum 1), ("y", .vNum 2)])]) =
      .ok (.vObj [("a", .vObj [("x", .vNum 9), ("y", .vNum 2)])], 1)
    ∧ specNestedChange (rootChange 5 jId) "a"
        (.vObj [("x", .vNum 9)]) (.vBool true) .vUndef
        (.vObj [("a", .vObj [("x", .vNum 1), ("y", .vNum 2)])]) =
      .ok (.vObj [("a", .vObj [("x", .vNum 9)])], 1)
    ∧ (Except.ok (JVal.vObj [("a", .vObj [("x", .vNum 9), ("y", .vNum 2)])], 1) :
        Except String (JVal × Nat)) ≠
      .ok (.vObj [("a", .vObj [("x", .vNum 9)])], 1) :=
  ⟨rfl, rfl, by simp⟩

/-- Claim C5, amended: a raw-delta update through a focused handle is rewritten
into the ancestor's update qualified by the path with the mode always forced to
`false` — in particular a replace-mode request through a focused handle reaches
the merge engine as a merge-mode update on the path-qualified singleton, not as
a replace. -/
theorem c5_nested_mode_amended :
    (∀ (fuel : Nat) (tf : JVal → JVal) (key : String) (d mode c data : JVal),
      isEventArg d = false → (∀ s : String, d ≠ .vStr s) →
      nestedChange (rootChange fuel tf) key d mode c data =
        rootChange fuel tf (.vStr key) d (.vBool false) data)
    ∧ (∀ (fuel : Nat) (tf : JVal → JVal) (key : String) (d mode c data : JVal),
      isEventArg d = false → (∀ s : String, d ≠ .vStr s) → d ≠ .vUndef →
      nestedChange (rootChange fuel tf) key d mode c data =
        handleUpdateC fuel tf (singletonAt (splitPath key) d) (.vBool false) data) := by
  have main : ∀ (fuel : Nat) (tf : JVal → JVal) (key : String) (d mode c data : JVal),
      isEventArg d = false → (∀ s : String, d ≠ .vStr s) →
      nestedChange (rootChange fuel tf) key d mode c data =
        rootChange fuel tf (.vStr key) d (.vBool false) data := by
    intro fuel tf key d mode c data hev hs
    simp only [nestedChange, UpdateJ, hev, Bool.false_eq_true, if_false]
  refine ⟨main, ?_⟩
  intro fuel tf key d mode c data hev hs hu
  rw [main fuel tf key d mode c data hev hs]
  simp only [rootChange, UpdateJ, isEventArg, Bool.false_eq_true, if_false]
  cases d <;> rfl

/-- Witness for the amended C5 theorem at concrete inputs. -/
theorem c5_nested_mode_witness :
    nestedChange (rootChange 5 jId) "a"
        (.vObj [("x", .vNum 9)]) (.vBool true) .vUndef
        (.vObj [("a", .vObj [("x", .vNum 1), ("y", .vNum 2)])]) =
      rootChange 5 jId (.vStr "a") (.vObj [("x", .vNum 9)]) (.vBool false)
        (.vObj [("a", .vObj [("x", .vNum 1), ("y", .vNum 2)])])
    ∧ nestedChange (rootChange 5 jId) "a"
        (.vObj [("x", .vNum 9)]) (.vBool true) .vUndef
        (.vObj [("a", .vObj [("x", .vNum 1), ("y", .vNum 2)])]) =
      handleUpdateC 5 jId (singletonAt (splitPath "a") (.vObj [("x", .vNum 9)]))
        (.vBool false) (.vObj [("a", .vObj [("x", .vNum 1), ("y", .vNum 2)])]) :=
  ⟨c5_nested_mode_amended.1 5 jId "a" (.vObj [("x", .vNum 9)]) (.vBool true) .vUndef
      (.vObj [("a", .vObj [("x", .vNum 1), ("y", .vNum 2)])]) rfl (fun s h => by simp at h),
   c5_nested_mode_amended.2 5 jId "a" (.vObj [("x", .vNum 9)]) (.vBool true) .vUndef
      (.vObj [("a", .vObj [("x", .vNum 1), ("y", .vNum 2)])]) rfl (fun s h => by simp at h)
      (by simp)⟩

/-! List-engine helper lemmas. -/

theorem findIdx?_all_false {α : Type} (p : α → Bool) :
    ∀ (xs : List α) (i : Nat), (∀ x ∈ xs, p x = false) → xs.findIdx? p i = none := by
  intro xs
  induction xs with
  | nil => intro i _; rfl
  | cons x xs ih =>
    intro i hall
    rw [List.findIdx?_cons, hall x (by simp)]
    simp only [Bool.false_eq_true, if_false]
    exact ih (i + 1) (fun y hy => hall y (by simp [hy]))

theorem findIdx?_first_match {α : Type} (p : α → Bool) :
    ∀ (pre : List α) (y : α) (post : List α) (i : Nat),
    (∀ x ∈ pre, p x = false) → p y = true →
    (pre ++ y :: post).findIdx? p i = some (i + pre.length) := by
  intro pre
  induction pre with
  | nil =>
    intro y post i _ hy
    simp [List.findIdx?_cons, hy]
  | cons x pre ih =>
    intro y post i hall hy
    rw [List.cons_append, List.findIdx?_cons, hall x (by simp)]
    simp only [Bool.false_eq_true, if_false]
    rw [ih y post (i + 1) (fun z hz => hall z (by simp [hz])) hy]
    simp only [List.length_cons, Option.some.injEq]
    omega

theorem set_at_middle {α : Type} :
    ∀ (pre : List α) (y : α) (post : List α) (v : α),
    (pre ++ y :: post).set pre.length v = pre ++ v :: post := by
  intro pre
  induction pre with
  | nil => intro y post v; rfl
  | cons x pre ih => intro y post v; simp [List.set, ih]

theorem eraseIdx_at_middle {α : Type} :
    ∀ (pre : List α) (y : α) (post : List α),
    (pre ++ y :: post).eraseIdx pre.length = pre ++ post := by
  intro pre
  induction pre with
  | nil => intro y post; rfl
  | cons x pre ih => intro y post; simp [List.eraseIdx, ih]

theorem getD_at_middle {α : Type} :
    ∀ (pre : List α) (y : α) (post : List α) (d : α),
    (pre ++ y :: post).getD pre.length d = y := by
  intro pre
  induction pre with
  | nil => intro y post d; rfl
  | cons x pre ih => intro y post d; simpa using ih y post d

theorem matchIdx_none {ident : JVal → JVal} {item : JVal} {xs : List JVal}
    (h : ∀ x ∈ xs, jStrictEq (ident x) (ident item) = false) :
    matchIdx ident item xs = none :=
  findIdx?_all_false _ xs 0 h

theorem matchIdx_first {ident : JVal → JVal} {item y : JVal} {pre post : List JVal}
    (hpre : ∀ x ∈ pre, jStrictEq (ident x) (ident item) = false)
    (hy : jStrictEq (ident y) (ident item) = true) :
    matchIdx ident item (pre ++ y :: post) = some pre.length := by
  unfold matchIdx
  rw [findIdx?_first_match _ pre y post 0 hpre hy]
  simp

/-- Claim C6: the list engine's `remove(item)` removes exactly the first
element whose identity key strictly equals `identifier(item)`, leaving any
later elements with the same key in place; when no element matches, the array
is returned unchanged (a silent no-op). -/
theorem c6_remove_first_match : ∀ (ident : JVal → JVal) (item : JVal) (xs : List JVal),
    ((∀ x ∈ xs, jStrictEq (ident x) (ident item) = false) →
      removeCore ident item xs = xs)
    ∧ (∀ (pre : List JVal) (y : JVal) (post : List JVal), xs = pre ++ y :: post →
      (∀ x ∈ pre, jStrictEq (ident x) (ident item) = false) →
      jStrictEq (ident y) (ident item) = true →
      removeCore ident item xs = pre ++ post) := by
  intro ident item xs
  constructor
  · intro hall
    unfold removeCore
    rw [matchIdx_none hall]
  · intro pre y post hxs hpre hy
    subst hxs
    unfold removeCore
    rw [matchIdx_first hpre hy]
    exact eraseIdx_at_middle pre y post

/-- Witness for C6 at concrete inputs: removing `1` (identity key) from
`[1, 2, 1]` removes only the first occurrence, and removing `3` from the same
array is a no-op. -/
theorem c6_remove_first_match_witness :
    removeCore jId (.vNum 1) [.vNum 1, .vNum 2, .vNum 1] = [.vNum 2, .vNum 1]
    ∧ removeCore jId (.vNum 3) [.vNum 1, .vNum 2, .vNum 1] = [.vNum 1, .vNum 2, .vNum 1] :=
  ⟨(c6_remove_first_match jId (.vNum 1) [.vNum 1, .vNum 2, .vNum 1]).2
      [] (.vNum 1) [.vNum 2, .vNum 1] rfl (by decide) rfl,
   (c6_remove_first_match jId (.vNum 3) [.vNum 1, .vNum 2, .vNum 1]).1 (by decide)⟩

/-- Claim C7, counterexample: a merge-mode `update` of a *number* item with a
number delta does not replace the scalar element — ramda's deep merge of two
numbers produces the empty object, so the element becomes `{}`, not `7`. -/
theorem c7_counterexample :
    updateItemCore 5 jId (.vNum 5) (.vNum 7) .vUndef [.vNum 5] = .ok [.vObj []]
    ∧ (Except.ok [JVal.vObj []] : Except String (List JVal)) ≠ .ok [.vNum 7] :=
  ⟨rfl, by simp⟩

/-- Claim C7, amended: the list engine replaces the matched element with the
delta outright regardless of mode exactly when the *item argument* is a string
(the source tests `typeof item === 'string'`, not the matched element), or when
replace mode is requested.  A merge-mode update addressed by a non-string item
deep-merges the delta with the matched element — for number or boolean
scalars this produces ramda's merge of the two values (the empty object when
the delta is also a scalar), not the delta itself. -/
theorem c7_scalar_update_amended :
    (∀ (fuel : Nat) (ident : JVal → JVal) (s : String) (delta mode : JVal)
        (pre : List JVal) (y : JVal) (post : List JVal),
      (∀ x ∈ pre, jStrictEq (ident x) (ident (.vStr s)) = false) →
      jStrictEq (ident y) (ident (.vStr s)) = true →
      updateItemCore fuel ident (.vStr s) delta mode (pre ++ y :: post) =
        .ok (pre ++ delta :: post))
    ∧ (∀ (fuel : Nat) (ident : JVal → JVal) (item delta mode : JVal)
        (pre : List JVal) (y : JVal) (post : List JVal),
      truthy mode = true →
      (∀ x ∈ pre, jStrictEq (ident x) (ident item) = false) →
      jStrictEq (ident y) (ident item) = true →
      updateItemCore fuel ident item delta mode (pre ++ y :: post) =
        .ok (pre ++ delta :: post))
    ∧ (∀ (fuel : Nat) (ident : JVal → JVal) (item delta mode : JVal)
        (pre : List JVal) (y : JVal) (post : List JVal) (m : JVal),
      (∀ s : String, item ≠ .vStr s) → truthy mode = false →
      (∀ x ∈ pre, jStrictEq (ident x) (ident item) = false) →
      jStrictEq (ident y) (ident item) = true →
      mergeDeepLeftJ fuel delta y = .ok m →
      updateItemCore fuel ident item delta mode (pre ++ y :: post) =
        .ok (pre ++ m :: post))
    ∧ (∀ (fuel : Nat) (m n : Int),
      mergeDeepLeftJ (fuel + 1) (.vNum m) (.vNum n) = .ok (.vObj [])) := by
  refine ⟨?_, ?_, ?_, ?_⟩
  · intro fuel ident s delta mode pre y post hpre hy
    unfold updateItemCore
    rw [matchIdx_first hpre hy]
    simp only
    rw [set_at_middle]
  · intro fuel ident item delta mode pre y post hmode hpre hy
    unfold updateItemCore
    rw [matchIdx_first hpre hy]
    cases item <;> simp only [hmode, if_true] <;> rw [set_at_middle]
  · intro fuel ident item delta mode pre y post m hstr hmode hpre hy hm
    unfold updateItemCore
    rw [matchIdx_first hpre hy]
    cases item
    case vStr s => exact absurd rfl (hstr s)
    all_goals
      simp only [hmode, Bool.false_eq_true, if_false]
      rw [getD_at_middle, hm]
      simp only [Except.bind, Bind.bind]
      rw [set_at_middle]
  · intro fuel m n
    rfl

/-- Witness for the amended C7 theorem at concrete inputs. -/
theorem c7_scalar_update_witness :
    updateItemCore 5 jId (.vStr "a") (.vStr "z") .vUndef [.vStr "b", .vStr "a"] =
      .ok [.vStr "b", .vStr "z"]
    ∧ updateItemCore 5 jId (.vNum 1) (.vObj [("id", .vNum 42)]) (.vBool true) [.vNum 1] =
      .ok [.vObj [("id", .vNum 42)]]
    ∧ updateItemCore 5 jId (.vNum 5) (.vNum 7) .vUndef [.vNum 5] = .ok [.vObj []]
    ∧ mergeDeepLeftJ 5 (.vNum 7) (.vNum 5) = .ok (.vObj []) :=
  ⟨c7_scalar_update_amended.1 5 jId "a" (.vStr "z") .vUndef [.vStr "b"] (.vStr "a") []
      (by decide) (by decide),
   c7_scalar_update_amended.2.1 5 jId (.vNum 1) (.vObj [("id", .vNum 42)]) (.vBool true)
      [] (.vNum 1) [] rfl (by decide) (by decide),
   c7_scalar_update_amended.2.2.1 5 jId (.vNum 5) (.vNum 7) .vUndef [] (.vNum 5) []
      (.vObj []) (fun s h => by simp at h) rfl (by decide) (by decide) rfl,
   c7_scalar_update_amended.2.2.2 4 7 5⟩

/-! Focus-composition helper lemmas. -/

theorem splitCharList_append (a b : List Char) :
    splitCharList (a ++ '.' :: b) = splitCharList a ++ splitCharList b := by
  induction a with
  | nil =>
    simp only [List.nil_append, splitCharList, if_pos rfl]
    rfl
  | cons c cs ih =>
    show splitCharList (c :: (cs ++ '.' :: b)) = splitCharList (c :: cs) ++ splitCharList b
    simp only [splitCharList]
    by_cases hc : c = '.'
    · rw [if_pos hc, if_pos hc, ih]
      rfl
    · rw [if_neg hc, if_neg hc, ih]
      obtain ⟨t, ts, hts⟩ : ∃ t ts, splitCharList cs = t :: ts := by
        cases h : splitCharList cs with
        | nil => exact absurd h (splitCharList_ne_nil cs)
        | cons t ts => exact ⟨t, ts, rfl⟩
      rw [hts]
      rfl

theorem splitPath_append (s t : String) :
    splitPath (s ++ "." ++ t) = splitPath s ++ splitPath t := by
  simp only [splitPath]
  have h : (s ++ "." ++ t).data = s.data ++ '.' :: t.data := by
    rw [String.data_append, String.data_append]
    have hdot : (".".data : List Char) = ['.'] := by decide
    rw [hdot, List.append_assoc]
    rfl
  rw [h, splitCharList_append, List.map_append]

theorem singletonAt_append (xs ys : List String) (v : JVal) :
    singletonAt (xs ++ ys) v = singletonAt xs (singletonAt ys v) := by
  induction xs with
  | nil => rfl
  | cons k ks ih => simp [singletonAt, ih]

theorem jpath_undef (ks : List String) : jpath ks .vUndef = .vUndef := by
  cases ks <;> rfl

theorem jpath_append (xs ys : List String) (v : JVal) :
    jpath (xs ++ ys) v = jpath ys (jpath xs v) := by
  induction xs generalizing v with
  | nil => rfl
  | cons k ks ih =>
    show jpath (k :: (ks ++ ys)) v = jpath ys (jpath (k :: ks) v)
    simp only [jpath]
    by_cases hv : nullish v = true
    · rw [if_pos hv, if_pos hv, jpath_undef]
    · rw [if_neg hv, if_neg hv, ih]

/-- Reading through two nested focuses equals reading through the concatenated
dotted path (the `?? {}` default absorbs missing branches identically). -/
theorem nestedValue_comp (d : JVal) (k1 k2 : String) :
    nestedValue (nestedValue d k1) k2 = nestedValue d (k1 ++ "." ++ k2) := by
  simp only [nestedValue, splitPath_append, jpath_append]
  obtain ⟨c2, cs2, hk2⟩ := splitPath_exists_cons k2
  by_cases h1 : nullish (jpath (splitPath k1) d) = true
  · rw [if_pos h1, hk2]
    have hleft : jpath (c2 :: cs2) (JVal.vObj []) = .vUndef := by
      simp [jpath, nullish, getProp, jpath_undef]
    have hright : jpath (c2 :: cs2) (jpath (splitPath k1) d) = .vUndef := by
      have hstep : jpath (c2 :: cs2) (jpath (splitPath k1) d) =
          if nullish (jpath (splitPath k1) d) = true then .vUndef
          else jpath cs2 (getProp (jpath (splitPath k1) d) c2) := rfl
      rw [hstep, if_pos h1]
    rw [hleft, hright]
  · rw [if_neg h1]

/-- Congruence for the dispatcher: two underlying update functions that agree
on every defined delta produce the same dispatch outcome on calls whose first
argument is defined (the dispatcher only ever passes the raw first argument or
a freshly built singleton object as the delta). -/
theorem UpdateJ_congr {γ : Type} (h h2 : JVal → JVal → Except String γ)
    (a b c : JVal) (ha : a ≠ .vUndef)
    (hcong : ∀ d r, d ≠ .vUndef → h d r = h2 d r) :
    UpdateJ h a b c = UpdateJ h2 a b c := by
  unfold UpdateJ
  split
  · unfold UpdateOnEventJ
    simp only []
    split
    · rfl
    · split
      · rename_i nm heq
        unfold UpdateOnPathAndValueJ
        obtain ⟨k, ks, hk⟩ := splitPath_exists_cons nm
        rw [hk]
        exact hcong _ _ (by simp [singletonAt])
      · rfl
  · rename_i hne
    clear hne
    revert ha
    cases a <;> intro ha
    case vStr s =>
      obtain ⟨k, ks, hk⟩ := splitPath_exists_cons s
      cases b
      case vUndef => exact hcong _ _ ha
      all_goals exact hcong _ _ (by rw [hk]; simp [singletonAt])
    all_goals exact hcong _ _ ha

/-- A root update called with a path string and a defined value funnels the
singleton delta into the root `handleUpdate` with the caller's replace flag. -/
theorem rootChangeStr (fuel : Nat) (tf : JVal → JVal) (key : String)
    (d c data : JVal) (hd : d ≠ .vUndef) :
    rootChange fuel tf (.vStr key) d c data =
    handleUpdateC fuel tf (singletonAt (splitPath key) d) c data := by
  revert hd
  cases d <;> intro hd
  case vUndef => exact absurd rfl hd
  all_goals rfl

/-- A nested update called with a path string and a defined value rewrites to
a merge-mode parent update on the singleton delta of that path. -/
theorem nestedChange_str (parent : ChangeFn) (key s : String)
    (d c data : JVal) (hd : d ≠ .vUndef) :
    nestedChange parent key (.vStr s) d c data =
    parent (.vStr key) (singletonAt (splitPath s) d) (.vBool false) data := by
  revert hd
  cases d <;> intro hd
  case vUndef => exact absurd rfl hd
  all_goals rfl

/-- Core of focus transitivity: the update functions of the twice-focused and
the once-focused (concatenated path) handles agree on every defined delta. -/
theorem nestedNested_core (fuel : Nat) (tf : JVal → JVal) (k1 k2 : String)
    (data d : JVal) (hd : d ≠ .vUndef) :
    nestedChange (rootChange fuel tf) k1 (.vStr k2) d (.vBool false) data =
    rootChange fuel tf (.vStr (k1 ++ "." ++ k2)) d (.vBool false) data := by
  obtain ⟨c2, cs2, hk2⟩ := splitPath_exists_cons k2
  rw [nestedChange_str _ _ _ _ _ _ hd,
      rootChangeStr fuel tf k1 _ _ data (by rw [hk2]; simp [singletonAt]),
      rootChangeStr fuel tf _ d _ data hd,
      splitPath_append, singletonAt_append]

/-- One dispatcher call through the twice-focused handle equals the same call
through the concatenated-path handle, whenever its first argument is defined. -/
theorem nestedNested_step (fuel : Nat) (tf : JVal → JVal) (k1 k2 : String)
    (a b c data : JVal) (ha : a ≠ .vUndef) :
    nestedChange (nestedChange (rootChange fuel tf) k1) k2 a b c data =
    nestedChange (rootChange fuel tf) (k1 ++ "." ++ k2) a b c data :=
  UpdateJ_congr _ _ a b c ha
    (fun d _ hd => nestedNested_core fuel tf k1 k2 data d hd)

/-- Two change functions that agree on calls with a defined first argument run
identically over any sequence of such calls. -/
theorem applyCalls_congr (ch1 ch2 : ChangeFn)
    (hstep : ∀ a b c data, a ≠ .vUndef → ch1 a b c data = ch2 a b c data) :
    ∀ (calls : List (JVal × JVal × JVal)) (data : JVal),
    (∀ p ∈ calls, p.1 ≠ JVal.vUndef) →
    applyCalls ch1 calls data = applyCalls ch2 calls data := by
  intro calls
  induction calls with
  | nil => intro data _; rfl
  | cons q rest ih =>
    intro data hall
    obtain ⟨a, b, c⟩ := q
    show (ch1 a b c data >>= fun p => applyCalls ch1 rest p.1) =
      (ch2 a b c data >>= fun p => applyCalls ch2 rest p.1)
    rw [hstep a b c data (hall (a, b, c) (by simp))]
    cases hc : ch2 a b c data with
    | error e => rfl
    | ok p =>
      simp only [Bind.bind, Except.bind]
      exact ih p.1 (fun q hq => hall q (by simp [hq]))

/-- Claim C3, counterexample: one `update(undefined)` call breaks the
equivalence — through `focus(focus(root,'a'),'b')` it installs `{a: 'b'}`
(the inner path string itself becomes the delta of the outer handle), while
through `focus(root,'a.b')` the path string `'a.b'` is merged as a raw delta,
spreading its characters as index keys. -/
theorem c3_counterexample :
    applyCalls (nestedChange (nestedChange (rootChange 5 jId) "a") "b")
        [(.vUndef, .vUndef, .vUndef)] (.vObj []) = .ok (.vObj [("a", .vStr "b")])
    ∧ applyCalls (nestedChange (rootChange 5 jId) "a.b")
        [(.vUndef, .vUndef, .vUndef)] (.vObj []) =
      .ok (.vObj [("0", .vStr "a"), ("1", .vStr "."), ("2", .vStr "b")])
    ∧ (Except.ok (JVal.vObj [("a", .vStr "b")]) : Except String JVal) ≠
      .ok (.vObj [("0", .vStr "a"), ("1", .vStr "."), ("2", .vStr "b")]) :=
  ⟨rfl, rfl, by simp⟩

/-- Claim C3, amended: focusing is transitive for every update sequence whose
calls pass a *defined* first argument: after any such sequence the
twice-focused handle and the concatenated-path handle produce the same root
tree, and their read values agree on every root state unconditionally. -/
theorem c3_focus_transitive_amended : ∀ (fuel : Nat) (tf : JVal → JVal) (k1 k2 : String),
    (∀ (calls : List (JVal × JVal × JVal)) (data : JVal),
      (∀ p ∈ calls, p.1 ≠ JVal.vUndef) →
      applyCalls (nestedChange (nestedChange (rootChange fuel tf) k1) k2) calls data =
        applyCalls (nestedChange (rootChange fuel tf) (k1 ++ "." ++ k2)) calls data)
    ∧ (∀ d : JVal, nestedValue (nestedValue d k1) k2 = nestedValue d (k1 ++ "." ++ k2)) := by
  intro fuel tf k1 k2
  constructor
  · intro calls data hall
    exact applyCalls_congr _ _
      (fun a b c data ha => nestedNested_step fuel tf k1 k2 a b c data ha)
      calls data hall
  · intro d
    exact nestedValue_comp d k1 k2

/-- Witness for the amended C3 theorem at concrete inputs. -/
theorem c3_focus_transitive_witness :
    applyCalls (nestedChange (nestedChange (rootChange 5 jId) "a") "b")
        [(.vObj [("x", .vNum 1)], .vUndef, .vUndef), (.vStr "y", .vNum 2, .vUndef)]
        (.vObj []) =
      applyCalls (nestedChange (rootChange 5 jId) ("a" ++ "." ++ "b"))
        [(.vObj [("x", .vNum 1)], .vUndef, .vUndef), (.vStr "y", .vNum 2, .vUndef)]
        (.vObj [])
    ∧ nestedValue (nestedValue (.vObj [("a", .vObj [("b", .vObj [("x", .vNum 7)])])]) "a") "b" =
      nestedValue (.vObj [("a", .vObj [("b", .vObj [("x", .vNum 7)])])]) ("a" ++ "." ++ "b") := by
  refine ⟨(c3_focus_transitive_amended 5 jId "a" "b").1 _ _ ?_,
    (c3_focus_transitive_amended 5 jId "a" "b").2 _⟩
  intro p hp
  simp only [List.mem_cons] at hp
  rcases hp with h | h | h
  · subst h; simp
  · subst h; simp
  · simp_all

/-! No-op republication lemmas (claim C9). -/

/-- The dotted path resolves through plain objects in `data` (each intermediate
level is a mapping carrying the next key); the leaf itself is unconstrained. -/
def pathObjOk : List String → JVal → Bool
  | [], _ => true
  | k :: ks, .vObj fs => (fs.any (fun p => p.1 == k)) && pathObjOk ks (getProp (.vObj fs) k)
  | _ :: _, _ => false

theorem mLoop2_acc_append {β : Type} :
    ∀ (fs acc : List (String × β)), ∃ ex, mLoop2 acc fs = acc ++ ex := by
  intro fs
  induction fs with
  | nil => intro acc; exact ⟨[], by simp [mLoop2]⟩
  | cons p rest ih =>
    intro acc
    rw [show mLoop2 acc (p :: rest) = (if acc.any (fun q => q.1 == p.1) then mLoop2 acc rest
        else mLoop2 (acc ++ [p]) rest) from rfl]
    by_cases hc : acc.any (fun q => q.1 == p.1) = true
    · rw [if_pos hc]
      obtain ⟨ex, hex⟩ := ih acc
      exact ⟨ex, hex⟩
    · rw [if_neg hc]
      obtain ⟨ex, hex⟩ := ih (acc ++ [p])
      exact ⟨p :: ex, by rw [hex, List.append_assoc]; rfl⟩

theorem mLoop2_nil_of_nodup {β : Type} :
    ∀ (fs acc : List (String × β)),
    (∀ q ∈ fs, acc.any (fun p => p.1 == q.1) = false) →
    (fs.map Prod.fst).Nodup →
    mLoop2 acc fs = acc ++ fs := by
  intro fs
  induction fs with
  | nil => intro acc _ _; simp [mLoop2]
  | cons p rest ih =>
    intro acc hdisj hnod
    rw [show mLoop2 acc (p :: rest) = (if acc.any (fun q => q.1 == p.1) then mLoop2 acc rest
        else mLoop2 (acc ++ [p]) rest) from rfl]
    rw [if_neg (by rw [hdisj p (by simp)]; simp)]
    rw [ih (acc ++ [p]) ?_ ?_]
    · rw [List.append_assoc]; rfl
    · intro q hq
      rw [List.any_append]
      rw [hdisj q (by simp [hq])]
      simp only [List.any_cons, List.any_nil, Bool.or_false, Bool.false_or]
      have hne : p.1 ≠ q.1 := by
        simp only [List.map_cons, List.nodup_cons] at hnod
        intro h
        exact hnod.1 (h ▸ List.mem_map_of_mem Prod.fst hq)
      simp [hne]
    · simp only [List.map_cons, List.nodup_cons] at hnod
      exact hnod.2

/-- Merging a delta without own enumerable keys into an object republishes the
object's entries (in order, when its keys are distinct). -/
theorem merge_keyless_delta (fuel : Nat) (d : JVal) (fs : List (String × JVal))
    (hd : jEntries d = []) (hnod : (fs.map Prod.fst).Nodup) :
    mergeDeepLeftJ (fuel + 1) d (.vObj fs) = .ok (.vObj fs) := by
  show ((do
    let p1 ← mLoop1 (mergeDeepLeftJ fuel) (jEntries d) (.vObj fs)
    Except.ok (.vObj (mLoop2 p1 (jEntries (.vObj fs))))) : Except String JVal) = _
  rw [hd]
  show Except.ok (JVal.vObj (mLoop2 [] fs)) = _
  rw [mLoop2_nil_of_nodup fs [] (by intro q _; rfl) hnod]
  rfl

/-- Merging the singleton tree carrying a non-object leaf `w` at a path that
resolves through plain objects succeeds and the merged result again reads `w`
at that path. -/
theorem mergeSingletonGet :
    ∀ (ks : List String) (fuel : Nat) (w data : JVal),
    ks ≠ [] → isPlainObj w = false → pathObjOk ks data = true → ks.length ≤ fuel →
    ∃ res, mergeDeepLeftJ fuel (singletonAt ks w) data = .ok res
      ∧ jpath ks res = w ∧ isPlainObj res = true := by
  intro ks
  induction ks with
  | nil => intro fuel w data hne; exact absurd rfl hne
  | cons k ks ih =>
    intro fuel w data _ hw hpath hfuel
    match data, hpath with
    | .vObj fs, hpath =>
      simp only [pathObjOk, Bool.and_eq_true] at hpath
      obtain ⟨hany, hrest⟩ := hpath
      obtain ⟨n, rfl⟩ : ∃ n, fuel = n + 1 := by
        cases fuel with
        | zero => simp at hfuel
        | succ n => exact ⟨n, rfl⟩
      cases ks with
      | nil =>
        refine ⟨.vObj (mLoop2 [(k, w)] fs), ?_, ?_, rfl⟩
        · show ((do
            let p1 ← mLoop1 (mergeDeepLeftJ n) [(k, w)] (.vObj fs)
            Except.ok (.vObj (mLoop2 p1 fs))) : Except String JVal) = _
          have hjh : jHas (JVal.vObj fs) k = Except.ok true := by
            rw [show jHas (JVal.vObj fs) k = Except.ok (fs.any (fun p => p.1 == k)) from rfl, hany]
          have hloop : mLoop1 (mergeDeepLeftJ n) [(k, w)] (.vObj fs) = .ok [(k, w)] := by
            simp only [mLoop1, hjh, hw]
            rfl
          rw [hloop]
          rfl
        · obtain ⟨ex, hex⟩ := mLoop2_acc_append fs [(k, w)]
          rw [hex]
          show jpath [] (getProp (.vObj ((k, w) :: ex)) k) = w
          simp [jpath, getProp, List.lookup]
      | cons k2 ks2 =>
        have hplain : ∃ gs, getProp (.vObj fs) k = .vObj gs := by
          cases hgp : getProp (.vObj fs) k <;> rw [hgp] at hrest <;>
            first
              | exact ⟨_, rfl⟩
              | simp [pathObjOk] at hrest
        obtain ⟨gs, hgs⟩ := hplain
        obtain ⟨res2, hres2, hjp2, hpl2⟩ :=
          ih n w (getProp (.vObj fs) k) (by simp) hw hrest (by simpa using hfuel)
        refine ⟨.vObj (mLoop2 [(k, res2)] fs), ?_, ?_, rfl⟩
        · show ((do
            let p1 ← mLoop1 (mergeDeepLeftJ n) [(k, singletonAt (k2 :: ks2) w)] (.vObj fs)
            Except.ok (.vObj (mLoop2 p1 fs))) : Except String JVal) = _
          have hjh : jHas (JVal.vObj fs) k = Except.ok true := by
            rw [show jHas (JVal.vObj fs) k = Except.ok (fs.any (fun p => p.1 == k)) from rfl, hany]
          have hpl : (isPlainObj (singletonAt (k2 :: ks2) w)
              && isPlainObj (getProp (JVal.vObj fs) k)) = true := by
            rw [hgs]
            rfl
          have hloop : mLoop1 (mergeDeepLeftJ n) [(k, singletonAt (k2 :: ks2) w)] (.vObj fs) =
              .ok [(k, res2)] := by
            simp only [mLoop1, hjh, hpl, if_true, hres2]
            rfl
          rw [hloop]
          rfl
        · obtain ⟨ex, hex⟩ := mLoop2_acc_append fs [(k, res2)]
          rw [hex]
          show jpath (k2 :: ks2) (getProp (.vObj ((k, res2) :: ex)) k) = w
          have hget : getProp (.vObj ((k, res2) :: ex)) k = res2 := by
            simp [getProp, List.lookup]
          rw [hget, hjp2]

theorem bind_ok_eq_map {α β : Type} (e : Except String α) (f : α → β) :
    (e >>= fun m => Except.ok (f m)) = Except.map f e := by
  cases e <;> rfl

/-- Any non-replace update runs the deep merge and applies the middleware to
its result. -/
theorem handleUpdateC_merge_mode (fuel : Nat) (tf : JVal → JVal) (d r data : JVal)
    (hr : truthy r = false) :
    handleUpdateC fuel tf d r data =
      Except.map (fun m => (tf m, 1)) (mergeDeepLeftJ fuel d data) := by
  cases d <;> simp only [handleUpdateC, hr] <;> exact bind_ok_eq_map _ _

/-- Reference heap for the C9 counterexample: one object `{foo: 'bar'}`. -/
def c9heap : Heap := ⟨[[("foo", .hStr "bar")]]⟩

/-- Claim C9, counterexample: with the state publishing object 0, the
documented no-op `update(null)` (falsy delta, merge mode) republishes a
*freshly allocated* object (reference 1) — a shallow merged copy — so the
published value is not referentially identical to its pre-call value. -/
theorem c9_counterexample :
    hRootChange 3 .hNull .hUndef .hUndef (.hRef 0) c9heap =
      .ok (.hRef 1, ⟨[[("foo", .hStr "bar")], [("foo", .hStr "bar")]]⟩)
    ∧ HVal.hRef 1 ≠ HVal.hRef 0 :=
  ⟨rfl, by simp⟩

/-- Claim C9, amended: the documented no-ops preserve the published value only
*structurally*, not referentially.  With the identity middleware, an update
whose first argument has no own enumerable keys (null, undefined, `false`, a
number, the empty string) republishes a tree with exactly the previous
entries, and a list-engine `remove` whose identity matches no element leaves
the array itself unchanged and republishes, through the root merge, a tree
that again holds that same array at the focused path — but the root object is
rebuilt by the merge rather than reused (see the reference-level
counterexample). -/
theorem c9_noop_publishes_equal_amended :
    (∀ (fuel : Nat) (d : JVal) (fs : List (String × JVal)),
      isEventArg d = false → jEntries d = [] → (fs.map Prod.fst).Nodup →
      rootChange (fuel + 1) jId d .vUndef .vUndef (.vObj fs) = .ok (.vObj fs, 1))
    ∧ (∀ (fuel : Nat) (key : String) (ident : JVal → JVal) (item data : JVal) (xs : List JVal),
      jpath (splitPath key) data = .vArr xs →
      pathObjOk (splitPath key) data = true →
      (∀ x ∈ xs, jStrictEq (ident x) (ident item) = false) →
      (splitPath key).length ≤ fuel →
      (∀ res : JVal,
        mergeDeepLeftJ fuel (singletonAt (splitPath key) (.vArr xs)) data = .ok res →
        handleRemoveItemJ (rootChange fuel jId) key ident item data = .ok (res, 1)
          ∧ jpath (splitPath key) res = .vArr xs)
      ∧ (mergeDeepLeftJ fuel (singletonAt (splitPath key) (.vArr xs)) data).isOk = true) := by
  constructor
  · intro fuel d fs hev hent hnod
    have hraw : rootChange (fuel + 1) jId d .vUndef .vUndef (.vObj fs) =
        handleUpdateC (fuel + 1) jId d .vUndef (.vObj fs) := by
      simp only [rootChange, UpdateJ, hev, Bool.false_eq_true, if_false]
      cases d <;> rfl
    rw [hraw, handleUpdateC_merge_mode (fuel + 1) jId d .vUndef (.vObj fs) rfl,
      merge_keyless_delta fuel d fs hent hnod]
    rfl
  · intro fuel key ident item data xs hpath hobj hmatch hfuel
    obtain ⟨res0, hres0, hjp0, _⟩ := mergeSingletonGet (splitPath key) fuel (.vArr xs) data
      (splitPath_ne_nil key) rfl hobj hfuel
    have hcurr : listCurrent data key = .vArr xs := by
      unfold listCurrent
      rw [hpath]
      rfl
    have hrem : removeCore ident item xs = xs := by
      unfold removeCore
      rw [matchIdx_none hmatch]
    have hroute : handleRemoveItemJ (rootChange fuel jId) key ident item data =
        handleUpdateC fuel jId (singletonAt (splitPath key) (.vArr xs)) .vUndef data := by
      unfold handleRemoveItemJ
      rw [hcurr]
      show rootChange fuel jId (.vStr key) (.vArr (removeCore ident item xs)) .vUndef data = _
      rw [hrem, rootChangeStr fuel jId key (.vArr xs) .vUndef data (by simp)]
    constructor
    · intro res hres
      have heq : res = res0 := by
        rw [hres0] at hres
        exact (Except.ok.inj hres).symm
      subst heq
      constructor
      · rw [hroute, handleUpdateC_merge_mode fuel jId _ .vUndef data rfl, hres0]
        rfl
      · exact hjp0
    · rw [hres0]
      rfl

/-- Witness for the amended C9 theorem at concrete inputs. -/
theorem c9_noop_publishes_equal_witness :
    rootChange 3 jId .vNull .vUndef .vUndef (.vObj [("foo", .vStr "bar")]) =
      .ok (.vObj [("foo", .vStr "bar")], 1)
    ∧ handleRemoveItemJ (rootChange 5 jId) "nest.tags" jId (.vStr "baz")
        (.vObj [("nest", .vObj [("tags", .vArr [.vStr "foo"]), ("some", .vStr "x")])]) =
      .ok (.vObj [("nest", .vObj [("tags", .vArr [.vStr "foo"]), ("some", .vStr "x")])], 1)
    ∧ jpath (splitPath "nest.tags")
        (.vObj [("nest", .vObj [("tags", .vArr [.vStr "foo"]), ("some", .vStr "x")])]) =
      .vArr [.vStr "foo"] := by
  refine ⟨c9_noop_publishes_equal_amended.1 2 .vNull [("foo", .vStr "bar")] rfl rfl
      (by decide), ?_, ?_⟩
  · exact (((c9_noop_publishes_equal_amended.2 5 "nest.tags" jId (.vStr "baz")
      (.vObj [("nest", .vObj [("tags", .vArr [.vStr "foo"]), ("some", .vStr "x")])])
      [.vStr "foo"] rfl rfl (by decide) (by decide)).1
      (.vObj [("nest", .vObj [("tags", .vArr [.vStr "foo"]), ("some", .vStr "x")])]) rfl).1)
  · rfl

/-! Heap-model frame lemmas (claim C8): the engine only allocates, it never
writes to an existing heap cell. -/

theorem hMergeLoop1_frame
    (mrg : HVal → HVal → Heap → Except String (HVal × Heap))
    (hm : ∀ l r h p, mrg l r h = .ok p → h.objs <+: p.2.objs) :
    ∀ (ents : List (String × HVal)) (r : HVal) (h : Heap)
      (p : List (String × HVal) × Heap),
    hMergeLoop1 mrg ents r h = .ok p → h.objs <+: p.2.objs := by
  intro ents
  induction ents with
  | nil =>
    intro r h p hp
    cases hp
    exact List.prefix_refl _
  | cons e rest ih =>
    intro r h p hp
    obtain ⟨k, lv⟩ := e
    unfold hMergeLoop1 at hp
    rw [except_bind_ok] at hp
    obtain ⟨b, _, hp⟩ := hp
    simp only [] at hp
    have hjp : ∀ q1 : HVal × Heap, h.objs <+: q1.2.objs →
        (do
          let q ← hMergeLoop1 mrg rest r q1.2
          Except.ok ((k, q1.1) :: q.1, q.2) : Except String (List (String × HVal) × Heap)) =
          .ok p →
        h.objs <+: p.2.objs := by
      intro q1 hq1 hq
      rw [except_bind_ok] at hq
      obtain ⟨q2, hq2, hfin⟩ := hq
      cases hfin
      exact hq1.trans (ih r q1.2 q2 hq2)
    split at hp
    · split at hp
      · rw [except_bind_ok] at hp
        obtain ⟨y, hy, hp⟩ := hp
        exact hjp y (hm _ _ _ _ hy) hp
      · rw [except_bind_ok] at hp
        obtain ⟨y, hy, hp⟩ := hp
        cases hy
        exact hjp _ (List.prefix_refl _) hp
    · rw [except_bind_ok] at hp
      obtain ⟨y, hy, hp⟩ := hp
      cases hy
      exact hjp _ (List.prefix_refl _) hp

theorem hMergeDeepLeft_frame :
    ∀ (fuel : Nat) (l r : HVal) (h : Heap) (p : HVal × Heap),
    hMergeDeepLeft fuel l r h = .ok p → h.objs <+: p.2.objs := by
  intro fuel
  induction fuel with
  | zero => intro l r h p hp; exact absurd hp (by simp [hMergeDeepLeft])
  | succ n ih =>
    intro l r h p hp
    unfold hMergeDeepLeft at hp
    rw [except_bind_ok] at hp
    obtain ⟨q, hq, hp⟩ := hp
    have h1 : h.objs <+: q.2.objs :=
      hMergeLoop1_frame (hMergeDeepLeft n) (fun l2 r2 h2 p2 => ih l2 r2 h2 p2)
        (hEntries h l) r h q hq
    cases hp
    exact h1.trans (List.prefix_append _ _)

theorem hSingleton_frame :
    ∀ (ks : List String) (v : HVal) (h : Heap),
    h.objs <+: (hSingleton ks v h).2.objs := by
  intro ks
  induction ks with
  | nil => intro v h; exact List.prefix_refl _
  | cons k ks ih =>
    intro v h
    exact (ih v h).trans (List.prefix_append _ _)

theorem hHandleUpdate_frame (fuel : Nat) (delta replace data : HVal) (h : Heap)
    (p : HVal × Heap) (hp : hHandleUpdate fuel delta replace data h = .ok p) :
    h.objs <+: p.2.objs := by
  unfold hHandleUpdate at hp
  split at hp
  · cases hp; exact List.prefix_refl _
  · cases hp; exact List.prefix_refl _
  · exact hMergeDeepLeft_frame _ _ _ _ _ hp

theorem hRootChange_frame (fuel : Nat) (a b c data : HVal) (h : Heap)
    (p : HVal × Heap) (hp : hRootChange fuel a b c data h = .ok p) :
    h.objs <+: p.2.objs := by
  unfold hRootChange at hp
  split at hp
  · exact hHandleUpdate_frame _ _ _ _ _ _ hp
  · exact (hSingleton_frame _ _ h).trans (hHandleUpdate_frame _ _ _ _ _ _ hp)
  · exact hHandleUpdate_frame _ _ _ _ _ _ hp

theorem lookup_any {β : Type} : ∀ (l : List (String × β)) (k : String) (v : β),
    l.lookup k = some v → l.any (fun p => p.1 == k) = true := by
  intro l k v
  induction l with
  | nil => intro hl; simp [List.lookup] at hl
  | cons p rest ih =>
    obtain ⟨k1, v1⟩ := p
    intro hl
    rw [show ((k1, v1) :: rest).lookup k =
        (match k == k1 with | true => some v1 | false => rest.lookup k) from rfl] at hl
    by_cases hk : (k == k1) = true
    · simp only [List.any_cons, Bool.or_eq_true]
      exact Or.inl (by rw [beq_iff_eq] at hk ⊢; exact hk.symm)
    · rw [Bool.not_eq_true] at hk
      rw [hk] at hl
      simp only [List.any_cons, Bool.or_eq_true]
      exact Or.inr (ih hl)

theorem lookupObj_old (h : Heap) (ext : List (List (String × HVal))) (i : Nat)
    (o : List (String × HVal)) (hi : h.objs[i]? = some o) :
    lookupObj ⟨h.objs ++ ext⟩ i = o := by
  unfold lookupObj
  show ((h.objs ++ ext)[i]?).getD [] = o
  rw [List.getElem?_append_left (List.getElem?_eq_some.mp hi).1, hi]
  rfl

theorem lookupObj_new (h : Heap) (ext : List (List (String × HVal))) (j : Nat)
    (o : List (String × HVal)) (hj : ext[j]? = some o) :
    lookupObj ⟨h.objs ++ ext⟩ (h.objs.length + j) = o := by
  unfold lookupObj
  show ((h.objs ++ ext)[h.objs.length + j]?).getD [] = o
  rw [List.getElem?_append_right (Nat.le_add_right _ _)]
  simp [hj]

/-- The heap produced by `update(source, true)` followed by
`update('nest.some', 'hello')`: the original cells, the two singleton-delta
allocations, the merged inner object and the merged root object. -/
def c8finalHeap (h : Heap) (fields nfields : List (String × HVal)) : Heap :=
  ⟨h.objs ++ [[("some", .hStr "hello")], [("nest", .hRef h.objs.length)],
    mLoop2 [("some", .hStr "hello")] nfields,
    mLoop2 [("nest", .hRef (h.objs.length + 2))] fields]⟩

/-- Claim C8: no update mutates the current tree, any sub-object of it, or the
caller's delta — every successful update only extends the heap, leaving every
pre-existing cell in place (first conjunct).  Concretely, for every heap and
every source object with a `nest.some` chain: `update(source, true)` publishes
the very source reference without touching the heap, and the subsequent
`update('nest.some', 'hello')` publishes a freshly merged root whose
`nest.some` reads `'hello'`, while the untouched source object still reads its
original value through the extended heap. -/
theorem c8_no_mutation :
    (∀ (fuel : Nat) (a b c data : HVal) (h : Heap) (v : HVal) (h2 : Heap),
      hRootChange fuel a b c data h = .ok (v, h2) → h.objs <+: h2.objs)
    ∧ (∀ (h : Heap) (srcId nestId : Nat) (fields nfields : List (String × HVal))
        (v0 d0 : HVal) (fuel : Nat),
      h.objs[srcId]? = some fields →
      fields.lookup "nest" = some (.hRef nestId) →
      h.objs[nestId]? = some nfields →
      nfields.lookup "some" = some v0 →
      hRootChange fuel (.hRef srcId) (.hBool true) .hUndef d0 h = .ok (.hRef srcId, h)
      ∧ hRootChange (fuel + 2) (.hStr "nest.some") (.hStr "hello") .hUndef (.hRef srcId) h =
          .ok (.hRef (h.objs.length + 3), c8finalHeap h fields nfields)
      ∧ hGetProp (c8finalHeap h fields nfields)
          (hGetProp (c8finalHeap h fields nfields) (.hRef (h.objs.length + 3)) "nest")
          "some" = .hStr "hello"
      ∧ hGetProp (c8finalHeap h fields nfields)
          (hGetProp (c8finalHeap h fields nfields) (.hRef srcId) "nest") "some" = v0) := by
  constructor
  · intro fuel a b c data h v h2 hp
    exact hRootChange_frame fuel a b c data h (v, h2) hp
  · intro h srcId nestId fields nfields v0 d0 fuel hs hn ht hv
    have hsing : hSingleton (splitPath "nest.some") (.hStr "hello") h =
        (.hRef (h.objs.length + 1),
          ⟨h.objs ++ [[("some", .hStr "hello")], [("nest", .hRef h.objs.length)]]⟩) := by
      rw [show splitPath "nest.some" = ["nest", "some"] from rfl]
      simp [hSingleton, allocObj, List.append_assoc]
    have hEnt1 : hEntries
        ⟨h.objs ++ [[("some", .hStr "hello")], [("nest", .hRef h.objs.length)]]⟩
        (.hRef (h.objs.length + 1)) = [("nest", .hRef h.objs.length)] := by
      unfold hEntries
      exact lookupObj_new h _ 1 _ rfl
    have hEnt0 : hEntries
        ⟨h.objs ++ [[("some", .hStr "hello")], [("nest", .hRef h.objs.length)]]⟩
        (.hRef h.objs.length) = [("some", .hStr "hello")] := by
      unfold hEntries
      have := lookupObj_new h [[("some", .hStr "hello")], [("nest", .hRef h.objs.length)]] 0
        [("some", .hStr "hello")] rfl
      simpa using this
    have hHasSome : hHas
        ⟨h.objs ++ [[("some", .hStr "hello")], [("nest", .hRef h.objs.length)]]⟩
        (.hRef nestId) "some" = .ok true := by
      show Except.ok ((lookupObj
        ⟨h.objs ++ [[("some", .hStr "hello")], [("nest", .hRef h.objs.length)]]⟩
        nestId).any (fun p => p.1 == "some")) = Except.ok true
      rw [lookupObj_old h _ nestId nfields ht, lookup_any nfields "some" v0 hv]
    have hloopIn : hMergeLoop1 (hMergeDeepLeft fuel) [("some", .hStr "hello")]
        (.hRef nestId)
        ⟨h.objs ++ [[("some", .hStr "hello")], [("nest", .hRef h.objs.length)]]⟩ =
        .ok ([("some", .hStr "hello")],
          ⟨h.objs ++ [[("some", .hStr "hello")], [("nest", .hRef h.objs.length)]]⟩) := by
      simp only [hMergeLoop1, hHasSome]
      rfl
    have hEntNest : hEntries
        ⟨h.objs ++ [[("some", .hStr "hello")], [("nest", .hRef h.objs.length)]]⟩
        (.hRef nestId) = nfields := by
      unfold hEntries
      exact lookupObj_old h _ nestId nfields ht
    have hmergeIn : hMergeDeepLeft (fuel + 1) (.hRef h.objs.length) (.hRef nestId)
        ⟨h.objs ++ [[("some", .hStr "hello")], [("nest", .hRef h.objs.length)]]⟩ =
        .ok (.hRef (h.objs.length + 2),
          ⟨h.objs ++ [[("some", .hStr "hello")], [("nest", .hRef h.objs.length)],
            mLoop2 [("some", .hStr "hello")] nfields]⟩) := by
      simp only [hMergeDeepLeft, hEnt0, hloopIn, hEntNest, allocObj,
        Bind.bind, Except.bind]
      simp [List.append_assoc, List.length_append, Nat.add_assoc]
    have hHasNest : hHas
        ⟨h.objs ++ [[("some", .hStr "hello")], [("nest", .hRef h.objs.length)]]⟩
        (.hRef srcId) "nest" = .ok true := by
      show Except.ok ((lookupObj
        ⟨h.objs ++ [[("some", .hStr "hello")], [("nest", .hRef h.objs.length)]]⟩
        srcId).any (fun p => p.1 == "nest")) = Except.ok true
      rw [lookupObj_old h _ srcId fields hs, lookup_any fields "nest" _ hn]
    have hGetNest : hGetProp
        ⟨h.objs ++ [[("some", .hStr "hello")], [("nest", .hRef h.objs.length)]]⟩
        (.hRef srcId) "nest" = .hRef nestId := by
      show ((lookupObj
        ⟨h.objs ++ [[("some", .hStr "hello")], [("nest", .hRef h.objs.length)]]⟩
        srcId).lookup "nest").getD .hUndef = .hRef nestId
      rw [lookupObj_old h _ srcId fields hs, hn]
      rfl
    have hloopOut : hMergeLoop1 (hMergeDeepLeft (fuel + 1))
        [("nest", .hRef h.objs.length)] (.hRef srcId)
        ⟨h.objs ++ [[("some", .hStr "hello")], [("nest", .hRef h.objs.length)]]⟩ =
        .ok ([("nest", .hRef (h.objs.length + 2))],
          ⟨h.objs ++ [[("some", .hStr "hello")], [("nest", .hRef h.objs.length)],
            mLoop2 [("some", .hStr "hello")] nfields]⟩) := by
      simp only [hMergeLoop1, hHasNest, hGetNest, hmergeIn, Bind.bind, Except.bind]
      rfl
    have hEntSrc : hEntries
        ⟨h.objs ++ [[("some", .hStr "hello")], [("nest", .hRef h.objs.length)],
          mLoop2 [("some", .hStr "hello")] nfields]⟩ (.hRef srcId) = fields := by
      unfold hEntries
      exact lookupObj_old h _ srcId fields hs
    have hmergeOut : hMergeDeepLeft (fuel + 2) (.hRef (h.objs.length + 1)) (.hRef srcId)
        ⟨h.objs ++ [[("some", .hStr "hello")], [("nest", .hRef h.objs.length)]]⟩ =
        .ok (.hRef (h.objs.length + 3), c8finalHeap h fields nfields) := by
      have hstep : hMergeDeepLeft (fuel + 2) (.hRef (h.objs.length + 1)) (.hRef srcId)
          ⟨h.objs ++ [[("some", .hStr "hello")], [("nest", .hRef h.objs.length)]]⟩ =
          ((do
            let p ← hMergeLoop1 (hMergeDeepLeft (fuel + 1))
              (hEntries ⟨h.objs ++ [[("some", .hStr "hello")],
                [("nest", .hRef h.objs.length)]]⟩ (.hRef (h.objs.length + 1)))
              (.hRef srcId)
              ⟨h.objs ++ [[("some", .hStr "hello")], [("nest", .hRef h.objs.length)]]⟩
            Except.ok (allocObj p.2 (mLoop2 p.1 (hEntries p.2 (.hRef srcId))))) :
            Except String (HVal × Heap)) := rfl
      rw [hstep, hEnt1, hloopOut]
      show Except.ok (allocObj
        ⟨h.objs ++ [[("some", .hStr "hello")], [("nest", .hRef h.objs.length)],
          mLoop2 [("some", .hStr "hello")] nfields]⟩
        (mLoop2 [("nest", .hRef (h.objs.length + 2))]
          (hEntries ⟨h.objs ++ [[("some", .hStr "hello")], [("nest", .hRef h.objs.length)],
            mLoop2 [("some", .hStr "hello")] nfields]⟩ (.hRef srcId)))) = _
      rw [hEntSrc]
      simp [allocObj, c8finalHeap, List.append_assoc, List.length_append, Nat.add_assoc]
    refine ⟨rfl, ?_, ?_, ?_⟩
    · show hHandleUpdate (fuel + 2) (hSingleton (splitPath "nest.some") (.hStr "hello") h).1
        .hUndef (.hRef srcId) (hSingleton (splitPath "nest.some") (.hStr "hello") h).2 = _
      rw [hsing]
      exact hmergeOut
    · have hr1 : hGetProp (c8finalHeap h fields nfields)
          (.hRef (h.objs.length + 3)) "nest" = .hRef (h.objs.length + 2) := by
        have hlk : lookupObj (c8finalHeap h fields nfields) (h.objs.length + 3) =
            mLoop2 [("nest", HVal.hRef (h.objs.length + 2))] fields := by
          unfold c8finalHeap
          exact lookupObj_new h _ 3 _ rfl
        show ((lookupObj (c8finalHeap h fields nfields)
          (h.objs.length + 3)).lookup "nest").getD .hUndef = .hRef (h.objs.length + 2)
        rw [hlk]
        obtain ⟨ex, hex⟩ := mLoop2_acc_append fields [("nest", HVal.hRef (h.objs.length + 2))]
        rw [hex]
        simp [List.lookup]
      have hr2 : hGetProp (c8finalHeap h fields nfields)
          (.hRef (h.objs.length + 2)) "some" = .hStr "hello" := by
        have hlk : lookupObj (c8finalHeap h fields nfields) (h.objs.length + 2) =
            mLoop2 [("some", HVal.hStr "hello")] nfields := by
          unfold c8finalHeap
          exact lookupObj_new h _ 2 _ rfl
        show ((lookupObj (c8finalHeap h fields nfields)
          (h.objs.length + 2)).lookup "some").getD .hUndef = .hStr "hello"
        rw [hlk]
        obtain ⟨ex, hex⟩ := mLoop2_acc_append nfields [("some", HVal.hStr "hello")]
        rw [hex]
        simp [List.lookup]
      rw [hr1, hr2]
    · have hr3 : hGetProp (c8finalHeap h fields nfields) (.hRef srcId) "nest" =
          .hRef nestId := by
        have hlk : lookupObj (c8finalHeap h fields nfields) srcId = fields := by
          unfold c8finalHeap
          exact lookupObj_old h _ srcId fields hs
        show ((lookupObj (c8finalHeap h fields nfields) srcId).lookup "nest").getD .hUndef =
          .hRef nestId
        rw [hlk, hn]
        rfl
      have hr4 : hGetProp (c8finalHeap h fields nfields) (.hRef nestId) "some" = v0 := by
        have hlk : lookupObj (c8finalHeap h fields nfields) nestId = nfields := by
          unfold c8finalHeap
          exact lookupObj_old h _ nestId nfields ht
        show ((lookupObj (c8finalHeap h fields nfields) nestId).lookup "some").getD .hUndef = v0
        rw [hlk, hv]
        rfl
      rw [hr3, hr4]

/-- Concrete heap for the C8 witness: object 0 is `{nest: ref 1}`, object 1 is
`{some: 'billy', tags: 't'}`. -/
def c8heap : Heap := ⟨[[("nest", .hRef 1)], [("some", .hStr "billy"), ("tags", .hStr "t")]]⟩

/-- Witness for the C8 theorem at concrete inputs. -/
theorem c8_no_mutation_witness :
    hRootChange 7 (.hRef 0) (.hBool true) .hUndef .hNull c8heap = .ok (.hRef 0, c8heap)
    ∧ hRootChange (7 + 2) (.hStr "nest.some") (.hStr "hello") .hUndef (.hRef 0) c8heap =
        .ok (.hRef (c8heap.objs.length + 3),
          c8finalHeap c8heap [("nest", .hRef 1)] [("some", .hStr "billy"), ("tags", .hStr "t")])
    ∧ hGetProp (c8finalHeap c8heap [("nest", .hRef 1)] [("some", .hStr "billy"), ("tags", .hStr "t")])
        (hGetProp (c8finalHeap c8heap [("nest", .hRef 1)] [("some", .hStr "billy"), ("tags", .hStr "t")])
          (.hRef (c8heap.objs.length + 3)) "nest") "some" = .hStr "hello"
    ∧ hGetProp (c8finalHeap c8heap [("nest", .hRef 1)] [("some", .hStr "billy"), ("tags", .hStr "t")])
        (hGetProp (c8finalHeap c8heap [("nest", .hRef 1)] [("some", .hStr "billy"), ("tags", .hStr "t")])
          (.hRef 0) "nest") "some" = .hStr "billy" :=
  c8_no_mutation.2 c8heap 0 1 [("nest", .hRef 1)] [("some", .hStr "billy"), ("tags", .hStr "t")]
    (.hStr "billy") .hNull 7 rfl rfl rfl rfl
